import Mathlib

/-!
# Verification of the GP2Y0A41SK0F sensor pipeline (voxel3D)

Shallow embedding of `src/sensor_distance.py` and `src/data_logger.py`.
Python floats are modelled as exact rationals (`ℚ`); the transcendental
exponential weights of the smoothing stage are modelled over `ℝ` with
`Real.exp`.  Stateful methods become explicit state-passing functions.
-/

namespace Voxel

/-! ## Generic list helpers (mean / min / max of a sample list) -/
/-- Arithmetic mean of a list, `np.mean`.  (`0` on the empty list, which the
code never produces for the lists we reason about.) -/
def mean (l : List ℚ) : ℚ := l.sum / l.length

/-- Minimum of a list (`0` on the empty list). -/
def listMin : List ℚ → ℚ
  | [] => 0
  | x :: xs => xs.foldl min x

/-- Maximum of a list (`0` on the empty list). -/
def listMax : List ℚ → ℚ
  | [] => 0
  | x :: xs => xs.foldl max x

/-! ## VoltageSampler: `GP2Y0A41SK0F.read_voltage`

`read_voltage` draws `samples` raw voltages (modelled here as the input list),
removes IQR outliers, falls back to the unfiltered set when everything was
removed, and returns the arithmetic mean of the survivors. -/
/-- Model of `np.percentile(l, p)` with the default linear interpolation method:
on the sorted data, return `s[⌊h⌋] + (h − ⌊h⌋)·(s[⌊h⌋+1] − s[⌊h⌋])` where
`h = (n−1)·p/100`. -/
def percentile (l : List ℚ) (p : ℚ) : ℚ :=
  let s := l.mergeSort (fun a b => decide (a ≤ b))
  let n := s.length
  if n = 0 then 0
  else
    let h : ℚ := (n - 1) * p / 100
    let i : ℕ := ⌊h⌋.toNat
    let lo := s.getD i 0
    let hi := s.getD (i + 1) lo
    lo + (h - i) * (hi - lo)

/-- The IQR outlier filter of `read_voltage`: keep samples inside
`[q1 − 1.5·iqr, q3 + 1.5·iqr]`. -/
def filterIQR (voltages : List ℚ) : List ℚ :=
  let q1 := percentile voltages 25
  let q3 := percentile voltages 75
  let iqr := q3 - q1
  let lower_bound := q1 - 3/2 * iqr
  let upper_bound := q3 + 3/2 * iqr
  voltages.filter (fun v => decide (lower_bound ≤ v ∧ v ≤ upper_bound))

/-- The value returned by `read_voltage`: mean of the IQR-filtered samples,
falling back to the unfiltered set when the filter removed everything. -/
def read_voltage_value (voltages : List ℚ) : ℚ :=
  let filtered := filterIQR voltages
  mean (if filtered = [] then voltages else filtered)

/-! ## DistanceCurve: `GP2Y0A41SK0F.voltage_to_distance_default` -/
/-- Physical minimum distance of the sensor, cm. -/
def min_distance : ℚ := 4

/-- Physical maximum distance of the sensor, cm. -/
def max_distance : ℚ := 30

/-- Model of `np.clip(x, lo, hi)`. -/
def clip (x lo hi : ℚ) : ℚ := max lo (min x hi)

/-- The analytic default curve.  Below 0.25 V clamps to `max_distance`,
above 3.3 V clamps to `min_distance`, otherwise `a/(V − b) − c` clipped into
the physical range; a division by zero at `V = b` (the `try`/`except` of the
source — unreachable given the 0.25 V threshold) resolves to `max_distance`. -/
def voltage_to_distance_default (voltage : ℚ) : ℚ :=
  if voltage < 25/100 then max_distance
  else if voltage > 33/10 then min_distance
  else if voltage - 4/100 = 0 then max_distance
  else clip (12 / (voltage - 4/100) - 42/100) min_distance max_distance

/-! ## RecursiveEstimator: `GP2Y0A41SK0F.kalman_filter`

The scalar Kalman update on the `(estimate, covariance)` pair:
predict `p ← p + q`, gain `k = p/(p + r)`, update `x ← x + k·(m − x)`,
`p ← (1 − k)·p`. -/
/-- One `kalman_filter` update (enabled path) on state `(x, p)`. -/
def kalman_step (q r : ℚ) (s : ℚ × ℚ) (measurement : ℚ) : ℚ × ℚ :=
  let p1 := s.2 + q
  let k := p1 / (p1 + r)
  (s.1 + k * (measurement - s.1), (1 - k) * p1)

/-- Iterated `kalman_filter` updates with the identical measurement. -/
def kalman_iterate (q r measurement : ℚ) (s : ℚ × ℚ) : ℕ → ℚ × ℚ
  | 0 => s
  | n + 1 => kalman_step q r (kalman_iterate q r measurement s n) measurement

/-- The gain `k = (p + q)/((p + q) + r)` computed by the next update from a
stored covariance `p`. -/
def kalman_gain (q r p : ℚ) : ℚ := (p + q) / (p + q + r)

/-! ## CalibrationModel persistence:
`GP2Y0A41SK0F.save_calibration` / `load_calibration`

`save_calibration` writes a document with the sensor name, a timestamp, the
ordered calibration-point list and the Kalman noise parameters; `load` reads
the points back and, when the document carries `kalman_params`, the noise
parameters.  (The interpolant rebuild performed on load concerns only the
derived interpolant, not the persisted data.) -/
/-- One calibration point `{distance, voltage, std}`. -/
structure CalPoint where
  distance : ℚ
  voltage : ℚ
  std : ℚ
deriving DecidableEq

/-- The persisted calibration state: point list plus noise parameters. -/
structure CalibState where
  calibration_points : List CalPoint
  kalman_q : ℚ
  kalman_r : ℚ
deriving DecidableEq

/-- The serialized calibration document. -/
structure CalibDoc where
  sensor : String
  timestamp : ℚ
  calibration_points : List CalPoint
  kalman_params : Option (ℚ × ℚ)

/-- Embedding of `save_calibration`: build the document from the current state. -/
def save_calibration (s : CalibState) (now : ℚ) : CalibDoc :=
  { sensor := "GP2Y0A41SK0F", timestamp := now,
    calibration_points := s.calibration_points,
    kalman_params := some (s.kalman_q, s.kalman_r) }

/-- Embedding of `load_calibration`: `none` models a missing/corrupt file (the `except`
branch): the state is untouched and `false` is returned.  Otherwise the point
list is restored, and the noise parameters when the document carries them. -/
def load_calibration (doc : Option CalibDoc) (s : CalibState) : CalibState × Bool :=
  match doc with
  | none => (s, false)
  | some d =>
    let s1 := { s with calibration_points := d.calibration_points }
    let s2 :=
      match d.kalman_params with
      | some qr => { s1 with kalman_q := qr.1, kalman_r := qr.2 }
      | none => s1
    (s2, true)

/-- The single conversion entry point: evaluate the interpolant when one
exists, otherwise delegate to the default curve; clip the result into the
physical range either way. -/
def voltage_to_distance (interp : Option (ℚ → ℚ)) (voltage : ℚ) : ℚ :=
  let distance :=
    match interp with
    | some f => f voltage
    | none => voltage_to_distance_default voltage
  clip distance min_distance max_distance

/-! ## AcquisitionLoop: `SensorDataLogger._logging_loop`

The producer publishes one `Reading` per iteration into `self.data_queue`,
a `queue.Queue()` constructed with no `maxsize` — an unbounded FIFO whose
`put` never blocks and never evicts.  After a successful iteration the loop
executes `time.sleep(interval)`; on any exception it reports and sleeps the
fixed 1-second recovery delay and continues. -/
/-- The reading record written to the CSV log and published to the queue. -/
structure Reading where
  timestamp : ℚ
  elapsed_time : ℚ
  distance_cm : ℚ
  distance_raw_cm : ℚ
  voltage_v : ℚ
  voltage_std : ℚ
  kalman_p : ℚ
  temperature_c : ℚ
deriving DecidableEq

/-- Model of `queue.Queue().put`: unbounded FIFO append; never blocks, never drops. -/
def queue_put (q : List Reading) (r : Reading) : List Reading := q ++ [r]

/-- The logger state shared between producer and consumers. -/
structure LoggerState where
  running : Bool
  data_queue : List Reading
  total_readings : ℕ
deriving DecidableEq

/-- One iteration of `_logging_loop`: on success (`outcome = some r`) the
reading is published and the producer sleeps `interval`; on a per-iteration
exception (`outcome = none`) the state is untouched and the producer sleeps
the fixed 1-second recovery delay.  `processing_time` is the iteration's
wall-clock processing duration, an environmental input the source never
consults when choosing the sleep.  Returns the new state and the sleep. -/
def logging_iteration (interval processing_time : ℚ) (st : LoggerState)
    (outcome : Option Reading) : LoggerState × ℚ :=
  match outcome with
  | some r =>
    ({ st with data_queue := queue_put st.data_queue r,
               total_readings := st.total_readings + 1 }, interval)
  | none => (st, 1)

/-- Run the producer over a list of per-iteration outcomes with a
never-draining consumer (nothing is ever removed from the queue). -/
def run_producer (interval : ℚ) (st : LoggerState)
    (outcomes : List (Option Reading)) : LoggerState :=
  outcomes.foldl (fun s o => (logging_iteration interval 0 s o).1) st

/-- Modelled from the spec: the latency-corrected sleep
`max(0, interval − elapsed)` that §4.7 prescribes, for comparison with the
source's fixed `time.sleep(interval)`. -/
def spec_sleep (interval elapsed : ℚ) : ℚ := max 0 (interval - elapsed)

/-! ## SmoothingBuffer: the weighted-average stage of `read_distance`

`distance_buffer` is a `deque(maxlen=10)`; when it holds more than 3 entries
the returned distance is `np.average(buffer, weights)` with
`weights = exp(linspace(-1, 0, len))` normalized to sum 1 — identical to the
dot product with the raw exponential weights divided by their sum. -/
/-- Model of `deque(maxlen=10).append`: append, evicting from the left on overflow. -/
def dequeAppend (buf : List ℚ) (x : ℚ) : List ℚ :=
  let b := buf ++ [x]
  if 10 < b.length then b.drop (b.length - 10) else b

/-- Cast a rational buffer to the reals, element-wise. -/
noncomputable def qList (l : List ℚ) : List ℝ := l.map (fun q : ℚ => (q : ℝ))

/-- Dot product of a weight list and a value list. -/
noncomputable def dotSum (w l : List ℝ) : ℝ := (List.zipWith (· * ·) w l).sum

/-- Model of `np.exp(np.linspace(-1, 0, n))`: the `i`-th weight is
`exp(−1 + i/(n−1))`. -/
noncomputable def expWeights (n : ℕ) : List ℝ :=
  (List.range n).map (fun (i : ℕ) => Real.exp (-1 + (i : ℝ) / ((n : ℝ) - 1)))

/-- Model of `np.average(l, weights = expWeights)` after normalizing the weights to
sum 1: equal to the raw dot product divided by the raw weight sum. -/
noncomputable def expWeightedAvg (l : List ℝ) : ℝ :=
  dotSum (expWeights l.length) l / (expWeights l.length).sum

/-- The smoothing stage of `read_distance` (lines 154–160): push the filtered
distance `d` into the buffer; if the buffer then holds more than 3 entries
return the exponentially-weighted average, else return `d` itself.  Returns
the produced distance and the updated buffer. -/
noncomputable def smooth_stage (buf : List ℚ) (d : ℚ) : ℝ × List ℚ :=
  let b := dequeAppend buf d
  (if 3 < b.length then expWeightedAvg (qList b) else (d : ℝ), b)

/-! ## SensorState: `GP2Y0A41SK0F.read_distance` / `get_statistics`

The mutable sensor object as an explicit state record.  `read_distance`
samples a voltage (the raw samples are an input here), converts it, and when
`filtered=True` runs the Kalman update and the smoothing stage; either way it
increments the reading counter and stamps the reading time.
`get_statistics` returns `none` exactly when `distance_buffer` is empty. -/
/-- The mutable state of a `GP2Y0A41SK0F` object. -/
structure SensorState where
  voltage_buffer : List ℚ
  distance_buffer : List ℚ
  interpolation_func : Option (ℚ → ℚ)
  kalman_enabled : Bool
  kalman_q : ℚ
  kalman_r : ℚ
  kalman_p : ℚ
  kalman_x : ℚ
  readings_count : ℕ
  last_reading_time : ℚ

/-- The fresh `__init__` state (no calibration file found: empty point set, default
curve, default Kalman parameters `q = 0.01`, `r = 0.1`, `p = 1`, `x = 15`). -/
def init_state (t0 : ℚ) : SensorState :=
  { voltage_buffer := [], distance_buffer := [], interpolation_func := none,
    kalman_enabled := true, kalman_q := 1/100, kalman_r := 1/10,
    kalman_p := 1, kalman_x := 15, readings_count := 0,
    last_reading_time := t0 }

/-- Embedding of `read_voltage` as a state transformer: computes the averaged voltage and
appends it to the bounded voltage history. -/
def sensor_read_voltage (s : SensorState) (samples : List ℚ) : ℚ × SensorState :=
  let voltage := read_voltage_value samples
  (voltage, { s with voltage_buffer := dequeAppend s.voltage_buffer voltage })

/-- Embedding of `kalman_filter` on the sensor state: identity when disabled, otherwise
the predict/gain/update step on `(kalman_x, kalman_p)`. -/
def sensor_kalman_filter (s : SensorState) (measurement : ℚ) : ℚ × SensorState :=
  if s.kalman_enabled then
    let p1 := s.kalman_p + s.kalman_q
    let k := p1 / (p1 + s.kalman_r)
    let x := s.kalman_x + k * (measurement - s.kalman_x)
    (x, { s with kalman_x := x, kalman_p := (1 - k) * p1 })
  else (measurement, s)

/-- Embedding of `read_distance(filtered)`: sample, convert, and — when filtering — run
the Kalman update followed by the smoothing stage; either way increment the
reading counter and stamp the reading time (`now`). -/
noncomputable def read_distance (s : SensorState) (samples : List ℚ)
    (now : ℚ) (filtered : Bool) : ℝ × SensorState :=
  let vr := sensor_read_voltage s samples
  let distance := voltage_to_distance s.interpolation_func vr.1
  if filtered then
    let kr := sensor_kalman_filter vr.2 distance
    let sm := smooth_stage kr.2.distance_buffer kr.1
    (sm.1, { kr.2 with
             distance_buffer := sm.2,
             readings_count := kr.2.readings_count + 1,
             last_reading_time := now })
  else
    ((distance : ℝ), { vr.2 with
                       readings_count := vr.2.readings_count + 1,
                       last_reading_time := now })

/-- Model of `np.std(l)^2`: the population variance. -/
def variance (l : List ℚ) : ℚ := mean (l.map (fun x => (x - mean l)^2))

/-- Model of `np.std(l)`: the population standard deviation. -/
noncomputable def std_dev (l : List ℚ) : ℝ := Real.sqrt ((variance l : ℚ) : ℝ)

/-- The statistics snapshot returned by `get_statistics`. -/
structure SensorStats where
  readings_count : ℕ
  distance_current : ℚ
  distance_mean : ℚ
  distance_std : ℝ
  distance_min : ℚ
  distance_max : ℚ
  voltage_current : ℚ
  voltage_mean : ℚ
  voltage_std : ℝ
  rate_hz : ℚ

/-- Embedding of `get_statistics`: `none` when the distance buffer is empty, otherwise a
snapshot over the distance and voltage histories. -/
noncomputable def get_statistics (s : SensorState) (now : ℚ) : Option SensorStats :=
  if s.distance_buffer.length = 0 then none
  else some
    { readings_count := s.readings_count,
      distance_current := s.distance_buffer.getLastD 0,
      distance_mean := mean s.distance_buffer,
      distance_std := std_dev s.distance_buffer,
      distance_min := listMin s.distance_buffer,
      distance_max := listMax s.distance_buffer,
      voltage_current := s.voltage_buffer.getLastD 0,
      voltage_mean := mean s.voltage_buffer,
      voltage_std := std_dev s.voltage_buffer,
      rate_hz := 1 / (now - s.last_reading_time) }

lemma foldl_min_le_init (xs : List ℚ) (a : ℚ) : xs.foldl min a ≤ a := by
  induction xs generalizing a with
  | nil => exact le_refl a
  | cons x xs ih => exact le_trans (ih (min a x)) (min_le_left a x)

lemma foldl_min_le_mem {xs : List ℚ} {x : ℚ} (hx : x ∈ xs) (a : ℚ) :
    xs.foldl min a ≤ x := by
  induction xs generalizing a with
  | nil => cases hx
  | cons y ys ih =>
    rcases List.mem_cons.mp hx with h | h
    · subst h
      exact le_trans (foldl_min_le_init ys (min a x)) (min_le_right a x)
    · exact ih h (min a y)

lemma init_le_foldl_max (xs : List ℚ) (a : ℚ) : a ≤ xs.foldl max a := by
  induction xs generalizing a with
  | nil => exact le_refl a
  | cons x xs ih => exact le_trans (le_max_left a x) (ih (max a x))

lemma mem_le_foldl_max {xs : List ℚ} {x : ℚ} (hx : x ∈ xs) (a : ℚ) :
    x ≤ xs.foldl max a := by
  induction xs generalizing a with
  | nil => cases hx
  | cons y ys ih =>
    rcases List.mem_cons.mp hx with h | h
    · subst h
      exact le_trans (le_max_right a x) (init_le_foldl_max ys (max a x))
    · exact ih h (max a y)

lemma listMin_le_mem {l : List ℚ} {x : ℚ} (hx : x ∈ l) : listMin l ≤ x := by
  cases l with
  | nil => cases hx
  | cons y ys =>
    rcases List.mem_cons.mp hx with h | h
    · subst h; exact foldl_min_le_init ys x
    · exact foldl_min_le_mem h y

lemma mem_le_listMax {l : List ℚ} {x : ℚ} (hx : x ∈ l) : x ≤ listMax l := by
  cases l with
  | nil => cases hx
  | cons y ys =>
    rcases List.mem_cons.mp hx with h | h
    · subst h; exact init_le_foldl_max ys x
    · exact mem_le_foldl_max h y

lemma le_mean {l : List ℚ} (hl : l ≠ []) {a : ℚ} (h : ∀ x ∈ l, a ≤ x) :
    a ≤ mean l := by
  have hlen : 0 < (l.length : ℚ) := by
    exact_mod_cast List.length_pos.mpr hl
  have hsum : l.length • a ≤ l.sum := List.card_nsmul_le_sum l a h
  rw [nsmul_eq_mul] at hsum
  rw [mean, le_div_iff₀ hlen]
  linarith [hsum]

lemma mean_le {l : List ℚ} (hl : l ≠ []) {b : ℚ} (h : ∀ x ∈ l, x ≤ b) :
    mean l ≤ b := by
  have hlen : 0 < (l.length : ℚ) := by
    exact_mod_cast List.length_pos.mpr hl
  have hsum : l.sum ≤ l.length • b := List.sum_le_card_nsmul l b h
  rw [nsmul_eq_mul] at hsum
  rw [mean, div_le_iff₀ hlen]
  linarith [hsum]

lemma filterIQR_subset {l : List ℚ} {x : ℚ} (hx : x ∈ filterIQR l) : x ∈ l := by
  simpa [filterIQR] using (List.mem_filter.mp hx).1

/-- C2: for every non-empty raw sample set, `read_voltage` returns a value
within `[min(samples), max(samples)]` and equals the arithmetic mean of the
surviving samples — the unfiltered set when the IQR filter removed every
sample, the filtered set otherwise. -/
theorem C2_read_voltage_bounds (l : List ℚ) (h : l ≠ []) :
    listMin l ≤ read_voltage_value l ∧ read_voltage_value l ≤ listMax l ∧
    read_voltage_value l = mean (if filterIQR l = [] then l else filterIQR l) := by
  have hmem : ∀ x ∈ (if filterIQR l = [] then l else filterIQR l), x ∈ l := by
    intro x hx
    by_cases hc : filterIQR l = []
    · rw [if_pos hc] at hx; exact hx
    · rw [if_neg hc] at hx; exact filterIQR_subset hx
  have hne : (if filterIQR l = [] then l else filterIQR l) ≠ [] := by
    by_cases hc : filterIQR l = []
    · rw [if_pos hc]; exact h
    · rw [if_neg hc]; exact hc
  refine ⟨?_, ?_, rfl⟩
  · exact le_mean hne (fun x hx => listMin_le_mem (hmem x hx))
  · exact mean_le hne (fun x hx => mem_le_listMax (hmem x hx))

/-- Witness for C2 at the concrete sample set `[1, 2, 3]`. -/
theorem C2_read_voltage_bounds_witness :
    ([1, 2, 3] : List ℚ) ≠ [] ∧
    (listMin [1, 2, 3] ≤ read_voltage_value [1, 2, 3] ∧
      read_voltage_value [1, 2, 3] ≤ listMax [1, 2, 3] ∧
      read_voltage_value [1, 2, 3] =
        mean (if filterIQR [1, 2, 3] = [] then [1, 2, 3] else filterIQR [1, 2, 3])) :=
  ⟨by decide, C2_read_voltage_bounds [1, 2, 3] (by decide)⟩

/-- C3: for every (finite) voltage input, the default curve stays within
`[min_distance, max_distance]`; in particular at the singularity
`voltage = b = 0.04` it returns the maximum-distance clamp, and no arithmetic
failure escapes (every branch returns a defined value). -/
theorem C3_default_curve_clamped :
    (∀ voltage : ℚ,
      min_distance ≤ voltage_to_distance_default voltage ∧
        voltage_to_distance_default voltage ≤ max_distance) ∧
    voltage_to_distance_default (4/100) = max_distance := by
  constructor
  · intro v
    unfold voltage_to_distance_default clip min_distance max_distance
    split_ifs with h1 h2 h3
    · exact ⟨by norm_num, le_refl 30⟩
    · exact ⟨le_refl 4, by norm_num⟩
    · exact ⟨by norm_num, le_refl 30⟩
    · constructor
      · exact le_max_left 4 _
      · exact max_le (by norm_num) (min_le_right _ 30)
  · have h : (4/100 : ℚ) < 25/100 := by norm_num
    rw [voltage_to_distance_default, if_pos h]

lemma kalman_step_zero_q (r x p m : ℚ) :
    kalman_step 0 r (x, p) m =
      (x + p / (p + r) * (m - x), (1 - p / (p + r)) * p) := by
  simp [kalman_step]

lemma kalman_step_fst (r : ℚ) (s : ℚ × ℚ) (m : ℚ) :
    (kalman_step 0 r s m).1 = s.1 + s.2 / (s.2 + r) * (m - s.1) := by
  simp [kalman_step]

lemma kalman_step_snd (r : ℚ) (s : ℚ × ℚ) (m : ℚ) :
    (kalman_step 0 r s m).2 = (1 - s.2 / (s.2 + r)) * s.2 := by
  simp [kalman_step]

lemma kalman_gain_bounds {r p : ℚ} (hr : 0 < r) (hp : 0 < p) :
    0 < p / (p + r) ∧ p / (p + r) < 1 := by
  have hpr : 0 < p + r := by linarith
  constructor
  · positivity
  · rw [div_lt_one hpr]; linarith

lemma kalman_cov_pos {r : ℚ} (hr : 0 < r) {p : ℚ} (hp : 0 < p) :
    0 < (1 - p / (p + r)) * p := by
  have hk := kalman_gain_bounds hr hp
  have : 0 < 1 - p / (p + r) := by linarith [hk.2]
  positivity

lemma kalman_iterate_cov_pos {r : ℚ} (hr : 0 < r) (m x0 : ℚ) {p0 : ℚ}
    (hp : 0 < p0) (n : ℕ) : 0 < (kalman_iterate 0 r m (x0, p0) n).2 := by
  induction n with
  | zero => exact hp
  | succ k ih =>
    show 0 < (kalman_step 0 r (kalman_iterate 0 r m (x0, p0) k) m).2
    rw [kalman_step_snd]
    exact kalman_cov_pos hr ih

lemma kalman_cov_strict_dec {r p : ℚ} (hr : 0 < r) (hp : 0 < p) :
    (1 - p / (p + r)) * p < p := by
  have hk := kalman_gain_bounds hr hp
  nlinarith [hk.1]

lemma kalman_gain_strict_mono {r p p' : ℚ} (hr : 0 < r) (hp' : 0 < p')
    (hlt : p' < p) : kalman_gain 0 r p' < kalman_gain 0 r p := by
  have hp : 0 < p := lt_trans hp' hlt
  have h1 : 0 < p' + r := by linarith
  have h2 : 0 < p + r := by linarith
  rw [kalman_gain, kalman_gain, add_zero, add_zero, div_lt_div_iff₀ h1 h2]
  nlinarith

/-- C4 (amended): with `process_noise = 0`, `measurement_noise = r > 0` and
initial covariance `p0 > 0`, over successive identical measurements the gain
is strictly decreasing from each update to the next; every update keeps the
estimate on the same side of the measurement and never past it, moving it
strictly closer whenever it differs from the measurement and leaving it fixed
when it already equals the measurement. -/
theorem C4_kalman_gain_dec_estimate_monotone (r p0 x0 m : ℚ)
    (hr : 0 < r) (hp : 0 < p0) (n : ℕ) :
    kalman_gain 0 r (kalman_iterate 0 r m (x0, p0) (n + 1)).2 <
      kalman_gain 0 r (kalman_iterate 0 r m (x0, p0) n).2 ∧
    ((kalman_iterate 0 r m (x0, p0) n).1 < m →
      (kalman_iterate 0 r m (x0, p0) n).1 < (kalman_iterate 0 r m (x0, p0) (n + 1)).1 ∧
      (kalman_iterate 0 r m (x0, p0) (n + 1)).1 < m) ∧
    (m < (kalman_iterate 0 r m (x0, p0) n).1 →
      m < (kalman_iterate 0 r m (x0, p0) (n + 1)).1 ∧
      (kalman_iterate 0 r m (x0, p0) (n + 1)).1 < (kalman_iterate 0 r m (x0, p0) n).1) ∧
    ((kalman_iterate 0 r m (x0, p0) n).1 = m →
      (kalman_iterate 0 r m (x0, p0) (n + 1)).1 = m) ∧
    |(kalman_iterate 0 r m (x0, p0) (n + 1)).1 - m| ≤
      |(kalman_iterate 0 r m (x0, p0) n).1 - m| := by
  have hpn : 0 < (kalman_iterate 0 r m (x0, p0) n).2 :=
    kalman_iterate_cov_pos hr m x0 hp n
  have hstep : kalman_iterate 0 r m (x0, p0) (n + 1) =
      kalman_step 0 r (kalman_iterate 0 r m (x0, p0) n) m := rfl
  set x := (kalman_iterate 0 r m (x0, p0) n).1
  set p := (kalman_iterate 0 r m (x0, p0) n).2
  have h1 : (kalman_iterate 0 r m (x0, p0) (n + 1)).1 =
      x + p / (p + r) * (m - x) := by rw [hstep, kalman_step_fst]
  have h2 : (kalman_iterate 0 r m (x0, p0) (n + 1)).2 =
      (1 - p / (p + r)) * p := by rw [hstep, kalman_step_snd]
  rw [h1, h2]
  have hk := kalman_gain_bounds hr hpn
  have hk0 : 0 < p / (p + r) := hk.1
  have hk1 : p / (p + r) < 1 := hk.2
  refine ⟨?_, ?_, ?_, ?_, ?_⟩
  · exact kalman_gain_strict_mono hr (kalman_cov_pos hr hpn)
      (kalman_cov_strict_dec hr hpn)
  · intro hxm
    constructor
    · nlinarith
    · nlinarith
  · intro hmx
    constructor
    · nlinarith
    · nlinarith
  · intro hxm
    rw [hxm]; ring
  · have habs : x + p / (p + r) * (m - x) - m = (1 - p / (p + r)) * (x - m) := by
      ring
    rw [habs, abs_mul, abs_of_nonneg (by linarith : (0:ℚ) ≤ 1 - p / (p + r))]
    nlinarith [abs_nonneg (x - m)]

/-- Witness for C4 at `r = 1`, `p0 = 1`, `x0 = 0`, `m = 10`, `n = 0`. -/
theorem C4_kalman_gain_dec_estimate_monotone_witness :
    (0:ℚ) < 1 ∧
    (kalman_gain 0 1 (kalman_iterate 0 1 10 (0, 1) 1).2 <
      kalman_gain 0 1 (kalman_iterate 0 1 10 (0, 1) 0).2 ∧
    ((kalman_iterate 0 1 10 ((0:ℚ), (1:ℚ)) 0).1 < 10 →
      (kalman_iterate 0 1 10 ((0:ℚ), (1:ℚ)) 0).1 < (kalman_iterate 0 1 10 (0, 1) 1).1 ∧
      (kalman_iterate 0 1 10 ((0:ℚ), (1:ℚ)) 1).1 < 10) ∧
    ((10:ℚ) < (kalman_iterate 0 1 10 (0, 1) 0).1 →
      (10:ℚ) < (kalman_iterate 0 1 10 (0, 1) 1).1 ∧
      (kalman_iterate 0 1 10 ((0:ℚ), (1:ℚ)) 1).1 < (kalman_iterate 0 1 10 (0, 1) 0).1) ∧
    ((kalman_iterate 0 1 10 ((0:ℚ), (1:ℚ)) 0).1 = 10 →
      (kalman_iterate 0 1 10 ((0:ℚ), (1:ℚ)) 1).1 = 10) ∧
    |(kalman_iterate 0 1 10 ((0:ℚ), (1:ℚ)) 1).1 - 10| ≤
      |(kalman_iterate 0 1 10 ((0:ℚ), (1:ℚ)) 0).1 - 10|) :=
  ⟨by norm_num, C4_kalman_gain_dec_estimate_monotone 1 1 0 10 (by norm_num) (by norm_num) 0⟩

/-- Counterexample to C4 as stated: with the estimate already equal to the
measurement (`x0 = m = 5`, `r = 1`, `p0 = 1`, `q = 0`), the update leaves the
estimate unchanged, so it does not move strictly closer to the measurement. -/
theorem C4_counterexample_estimate_at_measurement :
    (kalman_iterate 0 1 5 (5, 1) 1).1 = 5 ∧
    ¬ |(kalman_iterate 0 1 5 ((5:ℚ), (1:ℚ)) 1).1 - 5| < |(5:ℚ) - 5| := by
  have h1 : kalman_iterate 0 1 5 ((5:ℚ), (1:ℚ)) 1 = kalman_step 0 1 (5, 1) 5 := rfl
  have h2 : (kalman_iterate 0 1 5 ((5:ℚ), (1:ℚ)) 1).1 = 5 := by
    rw [h1, kalman_step_zero_q]; norm_num
  refine ⟨h2, ?_⟩
  rw [h2]; norm_num

/-- C7: calibration persistence round-trips exactly: loading a saved state
recovers the point list in the same order with identical values and the
identical noise parameters, whatever state the load is applied to. -/
theorem C7_calibration_roundtrip (s t : CalibState) (now : ℚ) :
    (load_calibration (some (save_calibration s now)) t).1 = s ∧
    (load_calibration (some (save_calibration s now)) t).1.calibration_points =
      s.calibration_points ∧
    (load_calibration (some (save_calibration s now)) t).1.kalman_q = s.kalman_q ∧
    (load_calibration (some (save_calibration s now)) t).1.kalman_r = s.kalman_r ∧
    (load_calibration (some (save_calibration s now)) t).2 = true :=
  ⟨rfl, rfl, rfl, rfl, rfl⟩

/-! ## CalibrationModel conversion: `GP2Y0A41SK0F.voltage_to_distance` -/
lemma clip_mem {lo hi : ℚ} (h : lo ≤ hi) (x : ℚ) :
    lo ≤ clip x lo hi ∧ clip x lo hi ≤ hi :=
  ⟨le_max_left lo _, max_le h (min_le_right x hi)⟩

/-- C8: for every voltage and every calibration-model state (interpolant
present or absent), `voltage_to_distance` stays within
`[min_distance, max_distance]`, and equals the clamp of the interpolant's
value when one exists and of the default curve's value otherwise. -/
theorem C8_convert_always_clamped :
    ∀ (interp : Option (ℚ → ℚ)) (voltage : ℚ),
      (min_distance ≤ voltage_to_distance interp voltage ∧
        voltage_to_distance interp voltage ≤ max_distance) ∧
      voltage_to_distance interp voltage =
        clip ((interp.map (fun f => f voltage)).getD
          (voltage_to_distance_default voltage)) min_distance max_distance := by
  intro interp v
  have hlh : min_distance ≤ max_distance := by
    rw [min_distance, max_distance]; norm_num
  cases interp with
  | none => exact ⟨clip_mem hlh _, rfl⟩
  | some f => exact ⟨clip_mem hlh _, rfl⟩

/-- C1 (amended): the hand-off queue is an unbounded FIFO — publishing never
blocks and never drops an entry, so with a never-draining consumer the queue
after `n` successful iterations holds all `n` published readings in order
(its size grows without bound instead of stabilizing at 10), while the
producer keeps emitting (one reading per iteration, loop flag untouched). -/
theorem C1_queue_unbounded_fifo (interval : ℚ) (st : LoggerState)
    (rs : List Reading) :
    (run_producer interval st (rs.map Option.some)).data_queue =
      st.data_queue ++ rs ∧
    (run_producer interval st (rs.map Option.some)).total_readings =
      st.total_readings + rs.length ∧
    (run_producer interval st (rs.map Option.some)).running = st.running := by
  induction rs generalizing st with
  | nil => exact ⟨by simp [run_producer], by simp [run_producer], rfl⟩
  | cons r rs ih =>
    have hrun : run_producer interval st ((r :: rs).map Option.some) =
        run_producer interval ((logging_iteration interval 0 st (some r)).1)
          (rs.map Option.some) := rfl
    obtain ⟨hq, hc, hflag⟩ := ih ((logging_iteration interval 0 st (some r)).1)
    rw [hrun]
    refine ⟨?_, ?_, ?_⟩
    · rw [hq]
      show st.data_queue ++ [r] ++ rs = st.data_queue ++ r :: rs
      simp
    · rw [hc]
      show st.total_readings + 1 + rs.length = st.total_readings + (r :: rs).length
      simp [List.length_cons]
      omega
    · rw [hflag]; rfl

/-- Counterexample to C1 as stated: eleven successful publishes into an
initially empty queue leave all eleven readings in the queue in order — the
size exceeds the supposed capacity 10 and the oldest entry was not dropped. -/
theorem C1_counterexample_eleven_publishes :
    (run_producer (1/10) (LoggerState.mk true [] 0)
        ((([0, 1, 2, 3, 4, 5, 6, 7, 8, 9, 10] : List ℚ).map
          (fun i => Reading.mk i 0 0 0 0 0 0 25)).map Option.some)).data_queue =
      ([0, 1, 2, 3, 4, 5, 6, 7, 8, 9, 10] : List ℚ).map
        (fun i => Reading.mk i 0 0 0 0 0 0 25) ∧
    ¬ ((run_producer (1/10) (LoggerState.mk true [] 0)
        ((([0, 1, 2, 3, 4, 5, 6, 7, 8, 9, 10] : List ℚ).map
          (fun i => Reading.mk i 0 0 0 0 0 0 25)).map Option.some)).data_queue.length ≤ 10) := by
  have h : (run_producer (1/10) (LoggerState.mk true [] 0)
      ((([0, 1, 2, 3, 4, 5, 6, 7, 8, 9, 10] : List ℚ).map
        (fun i => Reading.mk i 0 0 0 0 0 0 25)).map Option.some)).data_queue =
      ([0, 1, 2, 3, 4, 5, 6, 7, 8, 9, 10] : List ℚ).map
        (fun i => Reading.mk i 0 0 0 0 0 0 25) := rfl
  refine ⟨h, ?_⟩
  rw [h, List.length_map]
  decide

/-- C6 (amended): after a successful iteration the producer sleeps the fixed
`interval` whatever the iteration's processing time was (no latency
correction), and on a per-iteration failure it sleeps the fixed 1-second
recovery delay, leaving the state — in particular the running flag — intact,
so the loop continues. -/
theorem C6_fixed_interval_sleep_and_backoff (interval processing_time : ℚ)
    (st : LoggerState) (r : Reading) :
    (logging_iteration interval processing_time st (some r)).2 = interval ∧
    (logging_iteration interval processing_time st none).2 = 1 ∧
    (logging_iteration interval processing_time st none).1 = st ∧
    (logging_iteration interval processing_time st (some r)).1.running =
      st.running :=
  ⟨rfl, rfl, rfl, rfl⟩

/-- Counterexample to C6 as stated: with `interval = 1/10` and an iteration
that took `1/20` of processing time, the loop sleeps `1/10`, not the
latency-corrected `max(0, 1/10 − 1/20) = 1/20`. -/
theorem C6_counterexample_sleep_not_corrected :
    (logging_iteration (1/10) (1/20) (LoggerState.mk true [] 0)
        (some (Reading.mk 0 0 0 0 0 0 0 25))).2 ≠ spec_sleep (1/10) (1/20) := by
  have h : (logging_iteration (1/10) (1/20) (LoggerState.mk true [] 0)
      (some (Reading.mk 0 0 0 0 0 0 0 25))).2 = 1/10 := rfl
  have h2 : spec_sleep (1/10) (1/20) = 1/20 := by
    rw [spec_sleep, max_eq_right (by norm_num : (0:ℚ) ≤ 1/10 - 1/20)]
    norm_num
  rw [h, h2]
  norm_num

lemma expWeights_length (n : ℕ) : (expWeights n).length = n := by
  rw [expWeights, List.length_map, List.length_range]

lemma expWeights_pos (n : ℕ) : ∀ x ∈ expWeights n, 0 < x := by
  intro x hx
  rw [expWeights] at hx
  obtain ⟨i, _, rfl⟩ := List.mem_map.mp hx
  exact Real.exp_pos _

lemma expWeights_sum_pos {n : ℕ} (hn : 0 < n) : 0 < (expWeights n).sum := by
  apply List.sum_pos (expWeights n) (expWeights_pos n)
  intro hnil
  have := expWeights_length n
  rw [hnil] at this
  simp at this
  omega

lemma dotSum_le_max (M : ℝ) (w : List ℝ) : ∀ (l : List ℝ),
    w.length = l.length → (∀ x ∈ w, 0 ≤ x) → (∀ x ∈ l, x ≤ M) →
    dotSum w l ≤ M * w.sum := by
  induction w with
  | nil => intro l _ _ _; simp [dotSum]
  | cons a w ih =>
    intro l hlen hw hM
    cases l with
    | nil => simp at hlen
    | cons b l' =>
      have h1 : dotSum (a :: w) (b :: l') = a * b + dotSum w l' := by
        simp [dotSum]
      have h2 : dotSum w l' ≤ M * w.sum :=
        ih l' (by simpa using hlen)
          (fun x hx => hw x (List.mem_cons_of_mem a hx))
          (fun x hx => hM x (List.mem_cons_of_mem b hx))
      have h3 : a * b ≤ a * M :=
        mul_le_mul_of_nonneg_left (hM b (List.mem_cons_self b l'))
          (hw a (List.mem_cons_self a w))
      rw [h1, List.sum_cons]
      nlinarith

lemma min_le_dotSum (m : ℝ) (w : List ℝ) : ∀ (l : List ℝ),
    w.length = l.length → (∀ x ∈ w, 0 ≤ x) → (∀ x ∈ l, m ≤ x) →
    m * w.sum ≤ dotSum w l := by
  induction w with
  | nil => intro l _ _ _; simp [dotSum]
  | cons a w ih =>
    intro l hlen hw hm
    cases l with
    | nil => simp at hlen
    | cons b l' =>
      have h1 : dotSum (a :: w) (b :: l') = a * b + dotSum w l' := by
        simp [dotSum]
      have h2 : m * w.sum ≤ dotSum w l' :=
        ih l' (by simpa using hlen)
          (fun x hx => hw x (List.mem_cons_of_mem a hx))
          (fun x hx => hm x (List.mem_cons_of_mem b hx))
      have h3 : a * m ≤ a * b :=
        mul_le_mul_of_nonneg_left (hm b (List.mem_cons_self b l'))
          (hw a (List.mem_cons_self a w))
      rw [h1, List.sum_cons]
      nlinarith

lemma dotSum_lt_max (M : ℝ) (w : List ℝ) : ∀ (l : List ℝ),
    w.length = l.length → (∀ x ∈ w, 0 < x) → (∀ x ∈ l, x ≤ M) →
    (∃ x ∈ l, x < M) → dotSum w l < M * w.sum := by
  induction w with
  | nil =>
    intro l hlen _ _ hex
    obtain ⟨x, hx, _⟩ := hex
    have : l = [] := List.length_eq_zero.mp (by simpa using hlen.symm)
    rw [this] at hx
    cases hx
  | cons a w ih =>
    intro l hlen hw hM hex
    cases l with
    | nil => simp at hlen
    | cons b l' =>
      have h1 : dotSum (a :: w) (b :: l') = a * b + dotSum w l' := by
        simp [dotSum]
      have hw' : ∀ x ∈ w, 0 < x := fun x hx => hw x (List.mem_cons_of_mem a hx)
      have hM' : ∀ x ∈ l', x ≤ M := fun x hx => hM x (List.mem_cons_of_mem b hx)
      have ha : 0 < a := hw a (List.mem_cons_self a w)
      rw [h1, List.sum_cons]
      obtain ⟨x, hx, hxM⟩ := hex
      rcases List.mem_cons.mp hx with h | h
      · subst h
        have h4 : a * x < a * M := mul_lt_mul_of_pos_left hxM ha
        have h5 : dotSum w l' ≤ M * w.sum :=
          dotSum_le_max M w l' (by simpa using hlen)
            (fun y hy => le_of_lt (hw' y hy)) hM'
        nlinarith
      · have h4 : a * b ≤ a * M :=
          mul_le_mul_of_nonneg_left (hM b (List.mem_cons_self b l')) (le_of_lt ha)
        have h5 : dotSum w l' < M * w.sum :=
          ih l' (by simpa using hlen) hw' hM' ⟨x, h, hxM⟩
        nlinarith

lemma min_lt_dotSum (m : ℝ) (w : List ℝ) : ∀ (l : List ℝ),
    w.length = l.length → (∀ x ∈ w, 0 < x) → (∀ x ∈ l, m ≤ x) →
    (∃ x ∈ l, m < x) → m * w.sum < dotSum w l := by
  induction w with
  | nil =>
    intro l hlen _ _ hex
    obtain ⟨x, hx, _⟩ := hex
    have : l = [] := List.length_eq_zero.mp (by simpa using hlen.symm)
    rw [this] at hx
    cases hx
  | cons a w ih =>
    intro l hlen hw hm hex
    cases l with
    | nil => simp at hlen
    | cons b l' =>
      have h1 : dotSum (a :: w) (b :: l') = a * b + dotSum w l' := by
        simp [dotSum]
      have hw' : ∀ x ∈ w, 0 < x := fun x hx => hw x (List.mem_cons_of_mem a hx)
      have hm' : ∀ x ∈ l', m ≤ x := fun x hx => hm x (List.mem_cons_of_mem b hx)
      have ha : 0 < a := hw a (List.mem_cons_self a w)
      rw [h1, List.sum_cons]
      obtain ⟨x, hx, hmx⟩ := hex
      rcases List.mem_cons.mp hx with h | h
      · subst h
        have h4 : a * m < a * x := mul_lt_mul_of_pos_left hmx ha
        have h5 : m * w.sum ≤ dotSum w l' :=
          min_le_dotSum m w l' (by simpa using hlen)
            (fun y hy => le_of_lt (hw' y hy)) hm'
        nlinarith
      · have h4 : a * m ≤ a * b :=
          mul_le_mul_of_nonneg_left (hm b (List.mem_cons_self b l')) (le_of_lt ha)
        have h5 : m * w.sum < dotSum w l' :=
          ih l' (by simpa using hlen) hw' hm' ⟨x, h, hmx⟩
        nlinarith

lemma foldl_min_mem (xs : List ℚ) (a : ℚ) : xs.foldl min a ∈ a :: xs := by
  induction xs generalizing a with
  | nil => exact List.mem_singleton.mpr rfl
  | cons x xs ih =>
    rw [List.foldl_cons]
    rcases List.mem_cons.mp (ih (min a x)) with h' | h'
    · rw [h']
      rcases min_choice a x with hc | hc
      · rw [hc]; exact List.mem_cons_self a (x :: xs)
      · rw [hc]; exact List.mem_cons_of_mem a (List.mem_cons_self x xs)
    · exact List.mem_cons_of_mem a (List.mem_cons_of_mem x h')

lemma foldl_max_mem (xs : List ℚ) (a : ℚ) : xs.foldl max a ∈ a :: xs := by
  induction xs generalizing a with
  | nil => exact List.mem_singleton.mpr rfl
  | cons x xs ih =>
    rw [List.foldl_cons]
    rcases List.mem_cons.mp (ih (max a x)) with h' | h'
    · rw [h']
      rcases max_choice a x with hc | hc
      · rw [hc]; exact List.mem_cons_self a (x :: xs)
      · rw [hc]; exact List.mem_cons_of_mem a (List.mem_cons_self x xs)
    · exact List.mem_cons_of_mem a (List.mem_cons_of_mem x h')

lemma listMin_mem {l : List ℚ} (hl : l ≠ []) : listMin l ∈ l := by
  cases l with
  | nil => exact absurd rfl hl
  | cons x xs => exact foldl_min_mem xs x

lemma listMax_mem {l : List ℚ} (hl : l ≠ []) : listMax l ∈ l := by
  cases l with
  | nil => exact absurd rfl hl
  | cons x xs => exact foldl_max_mem xs x

lemma qList_length (l : List ℚ) : (qList l).length = l.length := by
  rw [qList, List.length_map]

lemma expWeightedAvg_bounds {b : List ℚ} (hb : b ≠ []) :
    ((listMin b : ℚ) : ℝ) ≤ expWeightedAvg (qList b) ∧
    expWeightedAvg (qList b) ≤ ((listMax b : ℚ) : ℝ) := by
  have hlen : (expWeights (qList b).length).length = (qList b).length :=
    expWeights_length _
  have hLpos : 0 < (qList b).length := by
    rw [qList_length]
    exact List.length_pos.mpr hb
  have hS : 0 < (expWeights (qList b).length).sum := expWeights_sum_pos hLpos
  have hwnn : ∀ x ∈ expWeights (qList b).length, 0 ≤ x :=
    fun x hx => le_of_lt (expWeights_pos _ x hx)
  have hMb : ∀ x ∈ qList b, x ≤ ((listMax b : ℚ) : ℝ) := by
    intro x hx
    obtain ⟨q, hq, rfl⟩ := List.mem_map.mp hx
    exact_mod_cast mem_le_listMax hq
  have hmb : ∀ x ∈ qList b, ((listMin b : ℚ) : ℝ) ≤ x := by
    intro x hx
    obtain ⟨q, hq, rfl⟩ := List.mem_map.mp hx
    exact_mod_cast listMin_le_mem hq
  constructor
  · rw [expWeightedAvg, le_div_iff₀ hS]
    have := min_le_dotSum ((listMin b : ℚ) : ℝ)
      (expWeights (qList b).length) (qList b) hlen hwnn hmb
    linarith
  · rw [expWeightedAvg, div_le_iff₀ hS]
    have := dotSum_le_max ((listMax b : ℚ) : ℝ)
      (expWeights (qList b).length) (qList b) hlen hwnn hMb
    linarith

lemma expWeightedAvg_strict_bounds {b : List ℚ} (hb : b ≠ [])
    (hne : listMin b < listMax b) :
    ((listMin b : ℚ) : ℝ) < expWeightedAvg (qList b) ∧
    expWeightedAvg (qList b) < ((listMax b : ℚ) : ℝ) := by
  have hlen : (expWeights (qList b).length).length = (qList b).length :=
    expWeights_length _
  have hLpos : 0 < (qList b).length := by
    rw [qList_length]
    exact List.length_pos.mpr hb
  have hS : 0 < (expWeights (qList b).length).sum := expWeights_sum_pos hLpos
  have hwpos : ∀ x ∈ expWeights (qList b).length, 0 < x := expWeights_pos _
  have hMb : ∀ x ∈ qList b, x ≤ ((listMax b : ℚ) : ℝ) := by
    intro x hx
    obtain ⟨q, hq, rfl⟩ := List.mem_map.mp hx
    exact_mod_cast mem_le_listMax hq
  have hmb : ∀ x ∈ qList b, ((listMin b : ℚ) : ℝ) ≤ x := by
    intro x hx
    obtain ⟨q, hq, rfl⟩ := List.mem_map.mp hx
    exact_mod_cast listMin_le_mem hq
  have hexlt : ∃ x ∈ qList b, x < ((listMax b : ℚ) : ℝ) := by
    refine ⟨((listMin b : ℚ) : ℝ),
      List.mem_map.mpr ⟨listMin b, listMin_mem hb, rfl⟩, ?_⟩
    exact_mod_cast hne
  have hexgt : ∃ x ∈ qList b, ((listMin b : ℚ) : ℝ) < x := by
    refine ⟨((listMax b : ℚ) : ℝ),
      List.mem_map.mpr ⟨listMax b, listMax_mem hb, rfl⟩, ?_⟩
    exact_mod_cast hne
  constructor
  · rw [expWeightedAvg, lt_div_iff₀ hS]
    have := min_lt_dotSum ((listMin b : ℚ) : ℝ)
      (expWeights (qList b).length) (qList b) hlen hwpos hmb hexgt
    linarith
  · rw [expWeightedAvg, div_lt_iff₀ hS]
    have := dotSum_lt_max ((listMax b : ℚ) : ℝ)
      (expWeights (qList b).length) (qList b) hlen hwpos hMb hexlt
    linarith

/-- C5 (amended): the smoothing stage pushes the filtered value and returns
it unchanged while the buffer holds at most 3 entries; with more than 3
entries it returns the normalized exponentially-weighted average, which lies
within `[min, max]` of the buffered values — strictly between them whenever
the buffer is not constant (when all entries are equal the average equals
that common value, so strictness fails only there). -/
theorem C5_smoothing_stage_average (buf : List ℚ) (d : ℚ) :
    (smooth_stage buf d).2 = dequeAppend buf d ∧
    (smooth_stage buf d).1 =
      (if 3 < (dequeAppend buf d).length
        then expWeightedAvg (qList (dequeAppend buf d))
        else (d : ℝ)) ∧
    ((dequeAppend buf d).length ≤ 3 ∨
      (((listMin (dequeAppend buf d) : ℚ) : ℝ) ≤ (smooth_stage buf d).1 ∧
        (smooth_stage buf d).1 ≤ ((listMax (dequeAppend buf d) : ℚ) : ℝ) ∧
        (listMin (dequeAppend buf d) = listMax (dequeAppend buf d) ∨
          (((listMin (dequeAppend buf d) : ℚ) : ℝ) < (smooth_stage buf d).1 ∧
            (smooth_stage buf d).1 < ((listMax (dequeAppend buf d) : ℚ) : ℝ))))) := by
  refine ⟨rfl, rfl, ?_⟩
  by_cases hlen : 3 < (dequeAppend buf d).length
  · right
    have hb : dequeAppend buf d ≠ [] := by
      intro h
      rw [h] at hlen
      simp at hlen
    have havg : (smooth_stage buf d).1 =
        expWeightedAvg (qList (dequeAppend buf d)) := by
      show (if 3 < (dequeAppend buf d).length then _ else _) = _
      rw [if_pos hlen]
    rw [havg]
    have hbnd := expWeightedAvg_bounds hb
    refine ⟨hbnd.1, hbnd.2, ?_⟩
    rcases eq_or_lt_of_le (le_trans (listMin_le_mem (listMax_mem hb)) (le_refl _)) with heq | hlt
    · exact Or.inl heq
    · exact Or.inr (expWeightedAvg_strict_bounds hb hlt)
  · exact Or.inl (Nat.le_of_not_lt hlen)

/-- Counterexample to C5 as stated: pushing `5` into the constant buffer
`[5, 5, 5]` gives 4 buffered entries, all equal; the weighted average equals
`5 = min = max`, so it does not lie strictly between min and max. -/
theorem C5_counterexample_constant_buffer :
    3 < (dequeAppend [5, 5, 5] (5:ℚ)).length ∧
    ¬ (((listMin (dequeAppend [5, 5, 5] (5:ℚ)) : ℚ) : ℝ) <
          (smooth_stage [5, 5, 5] (5:ℚ)).1 ∧
        (smooth_stage [5, 5, 5] (5:ℚ)).1 <
          ((listMax (dequeAppend [5, 5, 5] (5:ℚ)) : ℚ) : ℝ)) := by
  have hb : dequeAppend [5, 5, 5] (5:ℚ) = [5, 5, 5, 5] := rfl
  have hmin : listMin (dequeAppend [5, 5, 5] (5:ℚ)) = 5 := by
    rw [hb]
    norm_num [listMin, List.foldl]
  have hmax : listMax (dequeAppend [5, 5, 5] (5:ℚ)) = 5 := by
    rw [hb]
    norm_num [listMax, List.foldl]
  have hbne : dequeAppend [5, 5, 5] (5:ℚ) ≠ [] := by rw [hb]; simp
  have hbnd := expWeightedAvg_bounds hbne
  have h3 : 3 < (dequeAppend [5, 5, 5] (5:ℚ)).length := by rw [hb]; norm_num
  have havg : (smooth_stage [5, 5, 5] (5:ℚ)).1 =
      expWeightedAvg (qList (dequeAppend [5, 5, 5] (5:ℚ))) := by
    show (if 3 < (dequeAppend [5, 5, 5] (5:ℚ)).length
        then expWeightedAvg (qList (dequeAppend [5, 5, 5] (5:ℚ)))
        else (((5:ℚ)) : ℝ)) =
      expWeightedAvg (qList (dequeAppend [5, 5, 5] (5:ℚ)))
    rw [if_pos h3]
  constructor
  · rw [hb]; norm_num
  · rw [havg]
    rw [hmin, hmax] at hbnd
    intro hcon
    rw [hmin, hmax] at hcon
    exact absurd (lt_trans hcon.1 hcon.2) (lt_irrefl _)

/-- C9 (amended): `get_statistics` returns `none` exactly when the distance
smoothing buffer is empty; in particular a freshly initialized sensor, on
which no reading has been performed, always gets `none` rather than a
fabricated snapshot.  (Readings with the filter disabled leave the buffer
empty, so `none` can also be observed after such readings.) -/
theorem C9_statistics_absent_iff_buffer_empty (s : SensorState) (now : ℚ) :
    (get_statistics s now = none ↔ s.distance_buffer = []) ∧
    (∀ t0 now2 : ℚ, get_statistics (init_state t0) now2 = none) := by
  constructor
  · rw [get_statistics]
    by_cases h : s.distance_buffer.length = 0
    · rw [if_pos h]
      simp [List.length_eq_zero.mp h]
    · rw [if_neg h]
      constructor
      · intro hc
        exact absurd hc (Option.some_ne_none _)
      · intro hc
        exact absurd (by rw [hc] : s.distance_buffer.length = ([] : List ℚ).length)
          (by simpa using h)
  · intro t0 now2
    rfl

/-- Counterexample to C9 as stated: after one reading with the filter
disabled, a reading has been performed (`readings_count = 1 ≠ 0`), yet
`get_statistics` still returns `none` — so "absent exactly when no readings
exist yet" fails in the none-implies-no-readings direction. -/
theorem C9_counterexample_unfiltered_read_still_absent :
    get_statistics ((read_distance (init_state 0) [1, 2, 3] 1 false).2) 2 = none ∧
    ((read_distance (init_state 0) ([1, 2, 3] : List ℚ) 1 false).2).readings_count = 1 ∧
    ((read_distance (init_state 0) ([1, 2, 3] : List ℚ) 1 false).2).readings_count ≠ 0 := by
  have hbuf : ((read_distance (init_state 0) ([1, 2, 3] : List ℚ) 1
      false).2).distance_buffer = [] := rfl
  have hcnt : ((read_distance (init_state 0) ([1, 2, 3] : List ℚ) 1
      false).2).readings_count = 1 := rfl
  have hlen0 : ((read_distance (init_state 0) ([1, 2, 3] : List ℚ) 1
      false).2).distance_buffer.length = 0 := by rw [hbuf]; rfl
  refine ⟨?_, hcnt, ?_⟩
  · rw [get_statistics, if_pos hlen0]
  · rw [hcnt]
    exact one_ne_zero

/-- C10: a `read_distance` call with the filter disabled leaves the
estimator state (`kalman_x`, `kalman_p`, and the noise/enable parameters),
the distance smoothing buffer and the interpolant untouched; only the
voltage history (appended with the sampled average), the reading counter
(incremented) and the last-reading timestamp change, and the returned
distance is the converted voltage itself. -/
theorem C10_unfiltered_read_frame (s : SensorState) (samples : List ℚ) (now : ℚ) :
    (read_distance s samples now false).2.kalman_x = s.kalman_x ∧
    (read_distance s samples now false).2.kalman_p = s.kalman_p ∧
    (read_distance s samples now false).2.kalman_q = s.kalman_q ∧
    (read_distance s samples now false).2.kalman_r = s.kalman_r ∧
    (read_distance s samples now false).2.kalman_enabled = s.kalman_enabled ∧
    (read_distance s samples now false).2.distance_buffer = s.distance_buffer ∧
    (read_distance s samples now false).2.interpolation_func = s.interpolation_func ∧
    (read_distance s samples now false).2.voltage_buffer =
      dequeAppend s.voltage_buffer (read_voltage_value samples) ∧
    (read_distance s samples now false).2.readings_count = s.readings_count + 1 ∧
    (read_distance s samples now false).2.last_reading_time = now ∧
    (read_distance s samples now false).1 =
      ((voltage_to_distance s.interpolation_func (read_voltage_value samples) : ℚ) : ℝ) :=
  ⟨rfl, rfl, rfl, rfl, rfl, rfl, rfl, rfl, rfl, rfl, rfl⟩

end Voxel
